import Mathlib

/-!
Verification of the web_ghost peer-symmetric lobby core and its fixed-point
numeric substrate, shallowly embedded from the Rust sources.

The fixed-point scalar is `fixed::types::I20F12`: a 32-bit two's-complement
signed integer with 12 fraction bits.  We model raw bit patterns as `Int`
values in `[-2^31, 2^31)`.  The `fixed` crate's plain operators (`+`, `-`,
unary `-`, `*`, `/`) wrap on overflow in release builds; multiplication
shifts the exact product right arithmetically by 12 (floor), division shifts
the dividend left by 12 and uses truncating machine division.  The
`fixed_sqrt` crate computes the floor square root on the bit representation.
-/

namespace WebGhost

/-- Wrap an integer into the 32-bit two's-complement range `[-2^31, 2^31)`,
the release-mode overflow behaviour of the `fixed` crate's operators. -/
def wrap32 (n : Int) : Int := (n + 2 ^ 31) % 2 ^ 32 - 2 ^ 31

/-- Smallest raw I20F12 bit pattern. -/
def fixMin : Int := -(2 ^ 31)

/-- Largest raw I20F12 bit pattern. -/
def fixMax : Int := 2 ^ 31 - 1

/-- A raw value is representable as an I20F12 bit pattern. -/
def inRange (n : Int) : Prop := fixMin ≤ n ∧ n ≤ fixMax

instance (n : Int) : Decidable (inRange n) :=
  inferInstanceAs (Decidable (_ ∧ _))

/-- Raw I20F12 addition (`impl Add`): exact sum, wrapped. -/
def fadd (a b : Int) : Int := wrap32 (a + b)

/-- Raw I20F12 subtraction (`impl Sub`): exact difference, wrapped. -/
def fsub (a b : Int) : Int := wrap32 (a - b)

/-- Raw I20F12 negation (`impl Neg`): exact negation, wrapped. -/
def fneg (a : Int) : Int := wrap32 (-a)

/-- Raw I20F12 multiplication (`impl Mul`): exact product floor-shifted by
the 12 fraction bits, then wrapped to 32 bits. -/
def fmul (a b : Int) : Int := wrap32 (Int.fdiv (a * b) (2 ^ 12))

/-- Raw I20F12 division (`impl Div`): dividend shifted left by the 12
fraction bits, truncating machine division, then wrapped. -/
def fdivRaw (a b : Int) : Int := wrap32 (Int.tdiv (a * 2 ^ 12) b)

/-- Raw I20F12 `clamp` (Rust `Ord::clamp` on the inner integer):
below `lo` gives `lo`, above `hi` gives `hi`, otherwise unchanged. -/
def fclampS (x lo hi : Int) : Int := if x < lo then lo else if hi < x then hi else x

/-- Digit-by-digit floor square root (the integer square root algorithm of
the `fixed_sqrt` crate), with enough fuel for any argument below `4 ^ fuel`. -/
def isqrtGo (fuel : Nat) (n : Nat) : Nat :=
  match fuel with
  | 0 => 0
  | f + 1 =>
    let r := isqrtGo f (n / 4)
    if n < (2 * r + 1) * (2 * r + 1) then 2 * r else 2 * r + 1

/-- `fixed_sqrt::FixedSqrt::sqrt` for I20F12 (even number of fraction bits):
floor square root of the raw value shifted by the fraction width; 32 digits
cover every 32-bit raw value shifted by 12.  Only ever called on
non-negative raw values by the source. -/
def fsqrt (a : Int) : Int := Int.ofNat (isqrtGo 32 (a.toNat * 2 ^ 12))

/-- `Vec2Fixed`: a pair of I20F12 scalars (both `src/fixed_point.rs` and
`src/components.rs` declare this shape), held as raw bit patterns. -/
structure Vec2Fixed where
  x : Int
  y : Int
deriving DecidableEq

/-- Componentwise vector addition (`impl Add for Vec2Fixed`). -/
def vadd (a b : Vec2Fixed) : Vec2Fixed := ⟨fadd a.x b.x, fadd a.y b.y⟩

/-- Componentwise vector subtraction (`impl Sub for Vec2Fixed`). -/
def vsub (a b : Vec2Fixed) : Vec2Fixed := ⟨fsub a.x b.x, fsub a.y b.y⟩

/-- Componentwise vector negation (`impl Neg for Vec2Fixed`). -/
def vneg (a : Vec2Fixed) : Vec2Fixed := ⟨fneg a.x, fneg a.y⟩

/-- Scalar multiple (`impl Mul<Fixed> for Vec2Fixed`). -/
def vmulS (a : Vec2Fixed) (s : Int) : Vec2Fixed := ⟨fmul a.x s, fmul a.y s⟩

/-- Componentwise clamp (`Vec2Fixed::clamp`). -/
def vclamp (v lo hi : Vec2Fixed) : Vec2Fixed :=
  ⟨fclampS v.x lo.x hi.x, fclampS v.y lo.y hi.y⟩

/-- `Vec2Fixed::norm_sq` from `src/fixed_point.rs` (lines 104-111):
`x*x + y*y`, with a negative result clamped to zero. -/
def fpNormSq (v : Vec2Fixed) : Int :=
  let s := fadd (fmul v.x v.x) (fmul v.y v.y)
  if s < 0 then 0 else s

/-- `Vec2Fixed::norm_sq` from `src/components.rs` (lines 114-116):
`x*x + y*y` with no clamp. -/
def cpNormSq (v : Vec2Fixed) : Int := fadd (fmul v.x v.x) (fmul v.y v.y)

/-- `Vec2Fixed::normalize_or_zero` from `src/fixed_point.rs` (lines 118-127):
if the (clamped) squared length is nonzero, divide both components by its
fixed-point square root; otherwise return the vector unchanged. -/
def fpNormalizeOrZero (v : Vec2Fixed) : Vec2Fixed :=
  let lenSq := fpNormSq v
  if lenSq ≠ 0 then
    let len := fsqrt lenSq
    ⟨fdivRaw v.x len, fdivRaw v.y len⟩
  else v

/-- `Vec2Fixed::normalize_or_zero` from `src/components.rs` (lines 123-132):
same shape but over the unclamped `norm_sq`. -/
def cpNormalizeOrZero (v : Vec2Fixed) : Vec2Fixed :=
  let lenSq := cpNormSq v
  if lenSq ≠ 0 then
    let len := fsqrt lenSq
    ⟨fdivRaw v.x len, fdivRaw v.y len⟩
  else v

/-- Raw bound used by `move_players` in `src/main.rs`:
`MAP_SIZE / 2 - 0.5 = 41 / 2 - 0.5 = 20.0`, i.e. `20 * 4096` raw. -/
def mapHalfRaw : Int := 20 * 2 ^ 12

/-- Raw I20F12 bits of `from_num(0.13)` (`move_speed` in `move_players`). -/
def moveSpeedRaw : Int := 532

/-- The clamp box of `move_players`: `limit = (WIDTH, WIDTH)`. -/
def limitVec : Vec2Fixed := ⟨mapHalfRaw, mapHalfRaw⟩

/-- One player's per-tick movement from `move_players` in `src/main.rs`
(lines 271-299): a zero direction leaves the position untouched; otherwise
the position plus `direction * move_speed` is clamped into
`[-limit, limit]` componentwise before being stored.  The direction vector
is the output of `input::direction`, universally quantified here. -/
def movePlayer (dir pos : Vec2Fixed) : Vec2Fixed :=
  if dir = ⟨0, 0⟩ then pos
  else vclamp (vadd pos (vmulS dir moveSpeedRaw)) (vneg limitVec) limitVec

/-- The playfield box claimed as the position invariant:
both components within `[-(MAP_SIZE/2 - 0.5), MAP_SIZE/2 - 0.5]`. -/
def inPlayfield (p : Vec2Fixed) : Prop :=
  -mapHalfRaw ≤ p.x ∧ p.x ≤ mapHalfRaw ∧ -mapHalfRaw ≤ p.y ∧ p.y ≤ mapHalfRaw

instance (p : Vec2Fixed) : Decidable (inPlayfield p) :=
  inferInstanceAs (Decidable (_ ∧ _ ∧ _ ∧ _))

/-! ## Lobby data model

Identifiers are modelled as naturals: the ephemeral MatchBox transport
`PeerId` and the stable identities (`TabId` in `src/lobby.rs`,
`persistent_id` in `src/main.rs`) are opaque totally-ordered values in the
source (UUIDs and strings); only their order matters to the claims. -/

/-- A participant as seen by `lobby` in `src/lobby.rs`: an entity holding a
`MatchBoxPeerId` (ephemeral transport identifier) and a `TabId` (stable tab
identity). -/
structure LPlayer where
  matchPeerId : Nat
  tabId : Nat
deriving DecidableEq

/-- A participant as seen by `lobby` in `src/main.rs`: `MatchBoxId`
(ephemeral) and `PersistentPeerId` (stable). -/
structure MPlayer where
  matchId : Nat
  persistentId : Nat
deriving DecidableEq

/-- Handle assignment performed by `lobby` in `src/lobby.rs` (lines
399-450): participants are sorted by `sort_by_key(|(.., peer_id)| &peer_id.0)`
— the MatchBox transport identifier — and `handle = index` in that order. -/
def lobbyAssign (l : List LPlayer) : List (Nat × LPlayer) :=
  (List.insertionSort (fun a b => a.matchPeerId ≤ b.matchPeerId) l).enum

/-- Handle assignment performed by `lobby` in `src/main.rs` (lines 554-604):
`sort_by_key(|(_, _, info)| info.persistent_id)` — the stable persistent
identity — and `handle = index`. -/
def mainAssign (l : List MPlayer) : List (Nat × MPlayer) :=
  (List.insertionSort (fun a b => a.persistentId ≤ b.persistentId) l).enum

/-- The Player-Order Assignor as the spec words it (for comparison with
`lobbyAssign`): sort ascending by the stable tab identity, never the
ephemeral transport identifier, and assign `handle = index`. -/
def specOrderAssign (l : List LPlayer) : List (Nat × LPlayer) :=
  (List.insertionSort (fun a b => a.tabId ≤ b.tabId) l).enum

/-! ## Save-State Arbiter (`find_best_game_save`, `src/lobby.rs` 367-397) -/

/-- `GameSaveData`: a serialized snapshot (opaque payload) plus a timestamp. -/
structure GameSaveData where
  timestamp : Nat
  snapshot : Nat
deriving DecidableEq

/-- One entry of the `game_saves` query: a peer id with its optional save. -/
abbrev SaveEntry := Nat × Option GameSaveData

/-- A present (id, save) pair after `filter_map`. -/
abbrev SavePair := Nat × GameSaveData

/-- The reduction body of `find_best_game_save`: later timestamp wins,
equal timestamps broken by the larger peer id, ties keep the right operand. -/
def pickBetter (acc x : SavePair) : SavePair :=
  if x.2.timestamp < acc.2.timestamp then acc
  else if acc.2.timestamp < x.2.timestamp then x
  else if x.1 < acc.1 then acc
  else x

/-- The `filter_map` of `find_best_game_save`: keep entries whose save is
present, paired with their peer id. -/
def somePairs (l : List SaveEntry) : List SavePair :=
  l.filterMap fun e => e.2.map fun g => (e.1, g)

/-- Rust `Iterator::reduce` with `pickBetter`. -/
def reducePick (l : List SavePair) : Option SavePair :=
  match l with
  | [] => none
  | a :: rest => some (rest.foldl pickBetter a)

/-- `find_best_game_save`: reduce the present saves by `pickBetter` and
keep the chosen snapshot. -/
def find_best_game_save (l : List SaveEntry) : Option GameSaveData :=
  (reducePick (somePairs l)).map Prod.snd

/-- The winning pair itself (the value the fold converges to). -/
def bestPair (l : List SaveEntry) : Option SavePair :=
  reducePick (somePairs l)

/-- The lexicographic order `(timestamp, peer id)` the arbiter maximises. -/
def saveLe (p q : SavePair) : Prop :=
  p.2.timestamp < q.2.timestamp ∨ (p.2.timestamp = q.2.timestamp ∧ p.1 ≤ q.1)

instance (p q : SavePair) : Decidable (saveLe p q) :=
  inferInstanceAs (Decidable (_ ∨ _))

/-! ## Readiness Aggregator and Start Trigger (`src/lobby.rs` 323-365) -/

/-- A peer record entity as queried by the trigger systems: its MatchBox
peer id, whether a `TabId` component has been handshake-confirmed, the
`IsLocal` marker and the `IsReady` flag. -/
structure PRec where
  peerId : Nat
  hasTab : Bool
  isLocal : Bool
  ready : Bool
deriving DecidableEq

/-- The lobby world the trigger systems observe: the peer record entities,
the currently connected transport peers, and the local socket id (absent
until the signaling server assigns one). -/
structure LWorld where
  records : List PRec
  connected : List Nat
  myId : Option Nat
deriving DecidableEq

/-- `check_waiting_on` (`src/lobby.rs` 323-345): when the local socket id is
assigned, the `WaitingOn` resource lists every currently-reachable peer
(self included) without a `TabId`-bearing record; otherwise no resource. -/
def check_waiting_on (w : LWorld) : Option (List Nat) :=
  w.myId.map fun me =>
    (w.connected ++ [me]).filter fun id =>
      !(w.records.any fun r => r.peerId == id && r.hasTab)

/-- `trigger_game_start` (`src/lobby.rs` 349-365): fires when `WaitingOn`
exists and is empty, some record exists, a local record exists, and every
`IsReady` is true. -/
def trigger_game_start (w : LWorld) : Bool :=
  match check_waiting_on w with
  | none => false
  | some waiting =>
    waiting.isEmpty && !w.records.isEmpty &&
      w.records.any (fun r => r.isLocal) && w.records.all (fun r => r.ready)

/-- The start condition as the claim words it: the local peer exists (id
assigned, own record present), every known record (self included) is ready,
and no currently-reachable peer lacks a handshake-confirmed identity. -/
def claimStartCond (w : LWorld) : Prop :=
  (∃ me, w.myId = some me ∧
    ∀ id ∈ w.connected ++ [me],
      ∃ r ∈ w.records, r.peerId = id ∧ r.hasTab = true) ∧
  (∃ r ∈ w.records, r.isLocal = true) ∧
  (∀ r ∈ w.records, r.ready = true)

/-- A solo lobby: only the local, handshake-confirmed, ready record; no
other reachable peer. -/
def soloWorld : LWorld :=
  { records := [{ peerId := 7, hasTab := true, isLocal := true, ready := true }]
    connected := []
    myId := some 7 }

/-! ## One-shot session start (`GameState` gating of the lobby systems) -/

/-- The two states the lobby systems are gated on (`run_if(in_state(..))`);
`AssetLoading` precedes matchmaking and is irrelevant here. -/
inductive GState
  | Matchmaking
  | InGame
deriving DecidableEq

/-- Per-frame simulation state: the (applied) `GameState` and how many times
the session-construction logic in `lobby` has run. -/
structure SimState where
  game : GState
  started : Nat
deriving DecidableEq

/-- One frame of the relevant schedule: `trigger_game_start` (gated on
`Matchmaking`) emits the `GameStartTrigger` event; `lobby` (gated on
`Matchmaking`, ordered after the trigger) consumes it, constructs the
session once and queues `next_state.set(GameState::InGame)`, which Bevy
applies at the frame boundary.  In `InGame` neither system runs. -/
def frame (w : LWorld) (s : SimState) : SimState :=
  match s.game with
  | GState.Matchmaking =>
    if trigger_game_start w then
      { game := GState.InGame, started := s.started + 1 }
    else s
  | GState.InGame => s

/-- Run `n` frames from the initial matchmaking state against the per-tick
worlds `w`. -/
def runFrames (w : Nat → LWorld) : Nat → SimState
  | 0 => { game := GState.Matchmaking, started := 0 }
  | n + 1 => frame (w n) (runFrames w n)

/-! ## Handshake receive path (`receive_from_peers`, `src/lobby.rs` 279-318,
and the receive loop of `lobby`, `src/main.rs` 461-488) -/

/-- The `P2PMessage` envelope of `src/lobby.rs` (tab identity, optional
game save, readiness, profile).  `UserInfo` is opaque to these claims. -/
inductive P2PMessage
  | tabId (t : Nat)
  | gameSave (g : Option GameSaveData)
  | ready (b : Bool)
  | userInfo (u : Nat)
deriving DecidableEq

/-- A received payload, abstracting `bincode`: it either deserializes to a
message or fails to deserialize. -/
inductive Wire (μ : Type)
  | good (m : μ)
  | bad
deriving DecidableEq

/-- `bincode::deserialize` outcome on a payload. -/
def decodeWire {μ : Type} : Wire μ → Option μ
  | Wire.good m => some m
  | Wire.bad => none

/-- A peer record as mutated by `receive_from_peers`: the entity's MatchBox
peer id plus the components the message variants insert or remove. -/
structure HRec where
  peerId : Nat
  tabId : Option Nat
  gameSave : Option GameSaveData
  ready : Bool
  userInfo : Option Nat
deriving DecidableEq

/-- Applying one decoded message to the sender's record (each variant
inserts — or for `GameSave(None)` removes — one component). -/
def applyMsg (m : P2PMessage) (r : HRec) : HRec :=
  match m with
  | P2PMessage.tabId t => { r with tabId := some t }
  | P2PMessage.gameSave (some g) => { r with gameSave := some g }
  | P2PMessage.gameSave none => { r with gameSave := none }
  | P2PMessage.ready b => { r with ready := b }
  | P2PMessage.userInfo u => { r with userInfo := some u }

/-- Update the (first) record whose peer id matches the sender. -/
def updateFirst (records : List HRec) (pid : Nat) (m : P2PMessage) : List HRec :=
  match records with
  | [] => []
  | r :: rest =>
    if r.peerId = pid then applyMsg m r :: rest
    else r :: updateFirst rest pid m

/-- One iteration of the `retain` closure of `receive_from_peers`: if the
sender has a record, a decodable payload is applied and the message removed,
and an undecodable payload is logged and removed; if the sender has no
record, the message is kept in the backlog untouched.  Returns the records
and whether the message is retained. -/
def processMsg (records : List HRec) (msg : Nat × Wire P2PMessage) :
    List HRec × Bool :=
  if records.any fun r => r.peerId == msg.1 then
    match decodeWire msg.2 with
    | some m => (updateFirst records msg.1 m, false)
    | none => (records, false)
  else (records, true)

/-- `receive_from_peers`: fold the retain pass over the `Messages` backlog,
returning the records after all deferred inserts and the retained backlog. -/
def receive_from_peers (records : List HRec)
    (backlog : List (Nat × Wire P2PMessage)) :
    List HRec × List (Nat × Wire P2PMessage) :=
  backlog.foldl
    (fun st msg =>
      let res := processMsg st.1 msg
      (res.1, if res.2 then st.2 ++ [msg] else st.2))
    (records, [])

/-- `PeerInfo` of `src/main.rs`: readiness, profile name (opaque) and the
stable persistent identity. -/
structure PeerInfo where
  ready : Bool
  name : Nat
  persistentId : Nat
deriving DecidableEq

/-- The `P2PMessage` envelope of `src/main.rs`. -/
inductive MainMsg
  | peerInfo (i : PeerInfo)
  | gameSave (g : Option GameSaveData)
deriving DecidableEq

/-- A peer record entity of `src/main.rs`: `MatchBoxId`, `IsLocal`,
`PersistentPeerId` and the `PeerInfo` component. -/
structure MainRec where
  matchId : Nat
  isLocal : Bool
  persistentId : Nat
  info : Option PeerInfo
deriving DecidableEq

/-- Replace the `PeerInfo` of the (first) record matching the sender. -/
def mainUpdateInfo (records : List MainRec) (pid : Nat) (i : PeerInfo) :
    List MainRec :=
  match records with
  | [] => []
  | r :: rest =>
    if r.matchId = pid then { r with info := some i } :: rest
    else r :: mainUpdateInfo rest pid i

/-- Insert-or-update of the `gamesaves` local `HashMap`. -/
def upsertSave (saves : List (Nat × Option GameSaveData)) (pid : Nat)
    (g : Option GameSaveData) : List (Nat × Option GameSaveData) :=
  if saves.any fun e => e.1 == pid then
    saves.map fun e => if e.1 == pid then (pid, g) else e
  else saves ++ [(pid, g)]

/-- One received payload in the receive loop of `lobby` (`src/main.rs`
461-488): an undecodable payload is logged and dropped; a `PeerInfo` from a
known sender updates its record in place, and from an unknown sender
lazily spawns a new non-local record carrying the sender's transport id,
persistent id and info; a `GameSave` upserts the sender's entry in the
local `gamesaves` map. -/
def mainProcessMsg (records : List MainRec)
    (saves : List (Nat × Option GameSaveData)) (pid : Nat)
    (p : Wire MainMsg) :
    List MainRec × List (Nat × Option GameSaveData) :=
  match decodeWire p with
  | none => (records, saves)
  | some (MainMsg.peerInfo i) =>
    if records.any fun r => r.matchId == pid then
      (mainUpdateInfo records pid i, saves)
    else
      (records ++ [{ matchId := pid, isLocal := false,
                     persistentId := i.persistentId, info := some i }], saves)
  | some (MainMsg.gameSave g) => (records, upsertSave saves pid g)

/-! ## Theorems -/

/-- `isqrtGo` computes the floor square root of any argument its fuel
covers, so `fsqrt` is the floor square root of the shifted raw value. -/
theorem isqrtGo_spec (fuel n : Nat) (h : n < 4 ^ fuel) :
    isqrtGo fuel n * isqrtGo fuel n ≤ n ∧
      n < (isqrtGo fuel n + 1) * (isqrtGo fuel n + 1) := by
  induction fuel generalizing n with
  | zero =>
    simp only [isqrtGo]
    omega
  | succ f ih =>
    have hdiv : n / 4 < 4 ^ f := by
      have h4 : (4 : Nat) ^ (f + 1) = 4 ^ f * 4 := by ring
      omega
    have hr := ih (n / 4) hdiv
    set r := isqrtGo f (n / 4) with hrdef
    have hmod := Nat.div_add_mod n 4
    have hlow : 4 * (r * r) ≤ n := by omega
    have hhigh : n < 4 * ((r + 1) * (r + 1)) := by omega
    simp only [isqrtGo, ← hrdef]
    split
    · constructor
      · have : 2 * r * (2 * r) = 4 * (r * r) := by ring
        omega
      · omega
    · constructor
      · omega
      · have : (2 * r + 1 + 1) * (2 * r + 1 + 1) = 4 * ((r + 1) * (r + 1)) := by
          ring
        omega

/-- `wrap32` is the identity on representable raw values. -/
theorem wrap32_eq_of_inRange {n : Int} (h : inRange n) : wrap32 n = n := by
  rcases h with ⟨h1, h2⟩
  unfold fixMin at h1
  unfold fixMax at h2
  unfold wrap32
  rw [Int.emod_eq_of_lt (by omega) (by omega)]
  omega

/-- Claim C5 counterexample: adding one raw ulp to the largest representable
vector component wraps to the smallest representable value — it neither
saturates to the representable extreme nor produces a defined failure — and
negating or subtracting across the boundary wraps likewise. -/
theorem c5_add_wraps_at_extreme :
    vadd ⟨fixMax, 0⟩ ⟨1, 0⟩ = ⟨fixMin, 0⟩ ∧
    fixMin ≠ fixMax ∧ fixMin < fixMax ∧
    vsub ⟨fixMin, 0⟩ ⟨1, 0⟩ = ⟨fixMax, 0⟩ ∧
    vneg ⟨fixMin, 0⟩ = ⟨fixMin, 0⟩ := by decide

/-- Claim C5 amended: `add`, `subtract` and `negate` are exact whenever the
exact result is representable, and otherwise wrap two's-complement
(deterministically, identically on every peer) instead of saturating or
failing. -/
theorem c5_exact_in_range (a b : Vec2Fixed)
    (h₁ : inRange (a.x + b.x)) (h₂ : inRange (a.y + b.y))
    (h₃ : inRange (a.x - b.x)) (h₄ : inRange (a.y - b.y))
    (h₅ : inRange (-a.x)) (h₆ : inRange (-a.y)) :
    vadd a b = ⟨a.x + b.x, a.y + b.y⟩ ∧
    vsub a b = ⟨a.x - b.x, a.y - b.y⟩ ∧
    vneg a = ⟨-a.x, -a.y⟩ := by
  unfold vadd vsub vneg fadd fsub fneg
  rw [wrap32_eq_of_inRange h₁, wrap32_eq_of_inRange h₂,
    wrap32_eq_of_inRange h₃, wrap32_eq_of_inRange h₄,
    wrap32_eq_of_inRange h₅, wrap32_eq_of_inRange h₆]
  exact ⟨rfl, rfl, rfl⟩

/-- Witness for `c5_exact_in_range` at a concrete in-range input. -/
theorem c5_exact_in_range_witness :
    inRange ((4096 : Int) + 8192) ∧ inRange ((0 : Int) + 4096) ∧
    inRange ((4096 : Int) - 8192) ∧ inRange ((0 : Int) - 4096) ∧
    inRange (-(4096 : Int)) ∧ inRange (-(0 : Int)) ∧
    vadd ⟨4096, 0⟩ ⟨8192, 4096⟩ = ⟨4096 + 8192, 0 + 4096⟩ :=
  ⟨by decide, by decide, by decide, by decide, by decide, by decide,
    (c5_exact_in_range ⟨4096, 0⟩ ⟨8192, 4096⟩ (by decide) (by decide)
      (by decide) (by decide) (by decide) (by decide)).1⟩

/-- Claim C6, evaluated at the failing input `(724.0, 724.0)` (raw
`724 * 4096 = 2965504`): the `norm_sq` of `src/components.rs` returns the
negative raw value `-917504` (no clamp), while the twin in
`src/fixed_point.rs` clamps the same computation to zero, and the latter
never returns a negative value. -/
theorem c6_components_norm_sq_negative :
    cpNormSq ⟨2965504, 2965504⟩ = -917504 ∧
    cpNormSq ⟨2965504, 2965504⟩ < 0 ∧
    fpNormSq ⟨2965504, 2965504⟩ = 0 ∧
    ∀ v : Vec2Fixed, 0 ≤ fpNormSq v := by
  refine ⟨by decide, by decide, by decide, fun v => ?_⟩
  unfold fpNormSq
  dsimp only
  split <;> omega

set_option maxRecDepth 4000 in
/-- Claim C7 counterexample: the nonzero vector `(2^-12, 0)` (one raw ulp)
has computed squared length zero, so `normalize_or_zero` returns it
unchanged and the squared length of the result is `0`, not within any
epsilon below the unit value `1.0` (raw `4096`); the second input
`(63*2^-12, 2^-6)` has nonzero computed squared length yet normalizes to a
vector of squared length `8065` raw (≈ 1.97), also far from the unit value. -/
theorem c7_tiny_vector_unchanged :
    (⟨1, 0⟩ : Vec2Fixed) ≠ ⟨0, 0⟩ ∧
    fpNormalizeOrZero ⟨1, 0⟩ = ⟨1, 0⟩ ∧
    fpNormSq (fpNormalizeOrZero ⟨1, 0⟩) = 0 ∧
    cpNormalizeOrZero ⟨1, 0⟩ = ⟨1, 0⟩ ∧
    fpNormSq (fpNormalizeOrZero ⟨63, 64⟩) = 8065 := by decide

/-- Claim C7 amended: `normalize_or_zero` on the zero vector returns the
zero vector; a vector whose computed squared length is zero (possible for
nonzero vectors after rounding or clamping) is returned unchanged; a vector
with nonzero computed squared length has both components divided by the
fixed-point square root of that squared length. -/
theorem c7_normalize_cases :
    fpNormalizeOrZero ⟨0, 0⟩ = ⟨0, 0⟩ ∧
    ∀ v : Vec2Fixed,
      (fpNormSq v = 0 → fpNormalizeOrZero v = v) ∧
      (fpNormSq v ≠ 0 →
        fpNormalizeOrZero v =
          ⟨fdivRaw v.x (fsqrt (fpNormSq v)), fdivRaw v.y (fsqrt (fpNormSq v))⟩) := by
  refine ⟨by decide, fun v => ⟨fun h => ?_, fun h => ?_⟩⟩ <;>
    simp [fpNormalizeOrZero, h]

/-- Witness for `c7_normalize_cases` at the unit vector `(1.0, 0)`. -/
theorem c7_normalize_cases_witness :
    fpNormSq ⟨4096, 0⟩ ≠ 0 ∧
    fpNormalizeOrZero ⟨4096, 0⟩ =
      ⟨fdivRaw 4096 (fsqrt (fpNormSq ⟨4096, 0⟩)),
        fdivRaw 0 (fsqrt (fpNormSq ⟨4096, 0⟩))⟩ :=
  ⟨by decide, (c7_normalize_cases.2 ⟨4096, 0⟩).2 (by decide)⟩

/-- `fclampS` lands in `[lo, hi]` whenever `lo ≤ hi`. -/
theorem fclampS_mem {x lo hi : Int} (h : lo ≤ hi) :
    lo ≤ fclampS x lo hi ∧ fclampS x lo hi ≤ hi := by
  unfold fclampS
  split
  · omega
  · split <;> omega

/-- Claim C10: after one execution of the per-tick movement step, each
position component lies within the closed playfield box
`[-(MAP_SIZE/2 - 0.5), MAP_SIZE/2 - 0.5]`, for every direction (hence every
input) and every prior in-bounds position: the clamp is applied to every
moved position before it is stored, and an unmoved position keeps its
in-bounds value. -/
theorem c10_playfield_invariant (dir pos : Vec2Fixed) (h : inPlayfield pos) :
    inPlayfield (movePlayer dir pos) := by
  unfold movePlayer
  split
  · exact h
  · have hneg : vneg limitVec = ⟨-mapHalfRaw, -mapHalfRaw⟩ := by decide
    rw [hneg]
    unfold vclamp inPlayfield limitVec
    dsimp only
    have hx := @fclampS_mem (vadd pos (vmulS dir moveSpeedRaw)).x
      (-mapHalfRaw) mapHalfRaw (by decide)
    have hy := @fclampS_mem (vadd pos (vmulS dir moveSpeedRaw)).y
      (-mapHalfRaw) mapHalfRaw (by decide)
    exact ⟨hx.1, hx.2, hy.1, hy.2⟩

/-- Witness for `c10_playfield_invariant` at a concrete direction and
in-bounds position. -/
theorem c10_playfield_invariant_witness :
    inPlayfield ⟨0, 0⟩ ∧ inPlayfield (movePlayer ⟨4096, 0⟩ ⟨0, 0⟩) :=
  ⟨by decide, c10_playfield_invariant ⟨4096, 0⟩ ⟨0, 0⟩ (by decide)⟩

/-- Claim C3: the start trigger fires exactly when the local peer exists
(socket id assigned and a local record present), every known peer record
(self included) has `ready == true`, and no currently-reachable peer (self
included) is missing a handshake-confirmed identity; in particular a solo
peer satisfying these conditions does fire the trigger. -/
theorem c3_trigger_characterisation :
    (∀ w : LWorld, trigger_game_start w = true ↔ claimStartCond w) ∧
    trigger_game_start soloWorld = true := by
  refine ⟨fun w => ?_, by decide⟩
  unfold trigger_game_start check_waiting_on claimStartCond
  cases hm : w.myId with
  | none => simp
  | some me =>
    simp only [Option.map_some']
    simp only [Bool.and_eq_true, List.isEmpty_iff, List.filter_eq_nil_iff,
      List.any_eq_true, List.all_eq_true, Bool.not_eq_true',
      List.isEmpty_eq_false, Option.some.injEq, Bool.not_eq_false,
      beq_iff_eq, exists_eq_left']
    constructor
    · rintro ⟨⟨⟨hwait, _⟩, hloc⟩, hready⟩
      exact ⟨hwait, hloc, hready⟩
    · rintro ⟨hwait, hloc, hready⟩
      rcases hloc with ⟨r, hr, hl⟩
      exact ⟨⟨⟨hwait, List.ne_nil_of_mem hr⟩, ⟨r, hr, hl⟩⟩, hready⟩


/-- Claim C4: the begin-session signal is one-shot per lobby session.  If
the trigger condition holds on every tick (the peer set stays all-ready with
no change), the session-construction logic of `lobby` runs exactly once —
on the first frame — and every later re-evaluation is gated off by the
`Matchmaking -> InGame` state transition, so it never fires again. -/
theorem c4_one_shot (w : Nat → LWorld)
    (h : ∀ k, trigger_game_start (w k) = true) :
    ∀ n, 1 ≤ n →
      (runFrames w n).started = 1 ∧ (runFrames w n).game = GState.InGame := by
  intro n hn
  induction n with
  | zero => omega
  | succ m ih =>
    rcases Nat.eq_zero_or_pos m with hm | hm
    · subst hm
      simp [runFrames, frame, h 0]
    · rcases ih hm with ⟨h1, h2⟩
      show (frame (w m) (runFrames w m)).started = 1 ∧
        (frame (w m) (runFrames w m)).game = GState.InGame
      unfold frame
      rw [h2]
      exact ⟨h1, h2⟩

/-- Witness for `c4_one_shot`: a constantly all-ready solo lobby constructs
the session exactly once over three frames. -/
theorem c4_one_shot_witness :
    (∀ k : Nat, trigger_game_start ((fun _ => soloWorld) k) = true) ∧
    (runFrames (fun _ => soloWorld) 3).started = 1 :=
  ⟨fun _ => (by decide : trigger_game_start soloWorld = true),
    (c4_one_shot (fun _ => soloWorld)
      (fun _ => (by decide : trigger_game_start soloWorld = true)) 3
      (by decide)).1⟩

/-- Sorting by a key over pairwise-distinct keys is permutation-invariant:
any two permutations of the same elements sort to the same list. -/
theorem sortKey_eq_of_perm {α : Type} (key : α → Nat) (l₁ l₂ : List α)
    (hnd : l₁.Pairwise fun a b => key a ≠ key b) (hp : l₁.Perm l₂) :
    List.insertionSort (fun a b => key a ≤ key b) l₁ =
      List.insertionSort (fun a b => key a ≤ key b) l₂ := by
  haveI : IsTotal α (fun a b => key a ≤ key b) := ⟨fun a b => Nat.le_total _ _⟩
  haveI : IsTrans α (fun a b => key a ≤ key b) :=
    ⟨fun a b c h1 h2 => Nat.le_trans h1 h2⟩
  haveI : IsAntisymm α (fun a b => key a < key b) :=
    ⟨fun a b h1 h2 => absurd h2 (Nat.lt_asymm h1)⟩
  have hs₁ := List.sorted_insertionSort (fun a b => key a ≤ key b) l₁
  have hs₂ := List.sorted_insertionSort (fun a b => key a ≤ key b) l₂
  have hperm : (List.insertionSort (fun a b => key a ≤ key b) l₁).Perm
      (List.insertionSort (fun a b => key a ≤ key b) l₂) :=
    (List.perm_insertionSort _ l₁).trans
      (hp.trans (List.perm_insertionSort _ l₂).symm)
  have hnd₁ : (List.insertionSort (fun a b => key a ≤ key b) l₁).Pairwise
      (fun a b => key a ≠ key b) :=
    ((List.perm_insertionSort _ l₁).symm).pairwise hnd (fun h => Ne.symm h)
  have hnd₂ : (List.insertionSort (fun a b => key a ≤ key b) l₂).Pairwise
      (fun a b => key a ≠ key b) :=
    ((List.perm_insertionSort _ l₂).symm).pairwise (hp.pairwise hnd
      (fun h => Ne.symm h)) (fun h => Ne.symm h)
  have hlt₁ := (hs₁.and hnd₁).imp
    (fun h => Nat.lt_of_le_of_ne h.1 h.2)
  have hlt₂ := (hs₂.and hnd₂).imp
    (fun h => Nat.lt_of_le_of_ne h.1 h.2)
  exact List.eq_of_perm_of_sorted hperm hlt₁ hlt₂

/-- Claim C1 counterexample: with peer records `{transport 2, tab 10}` and
`{transport 1, tab 20}`, `lobby` in `src/lobby.rs` assigns handle 0 to the
peer with the *smaller transport id* (tab 20), while sorting the stable tab
identities ascending assigns handle 0 to tab 10 — the two assignments
differ; moreover two registries with the same tab-identity set but swapped
transport ids produce different tab-to-handle maps, so the assignment is
not a function of the stable identity set. -/
theorem c1_sorts_by_transport_id :
    lobbyAssign [⟨2, 10⟩, ⟨1, 20⟩] = [(0, ⟨1, 20⟩), (1, ⟨2, 10⟩)] ∧
    specOrderAssign [⟨2, 10⟩, ⟨1, 20⟩] = [(0, ⟨2, 10⟩), (1, ⟨1, 20⟩)] ∧
    lobbyAssign [⟨2, 10⟩, ⟨1, 20⟩] ≠ specOrderAssign [⟨2, 10⟩, ⟨1, 20⟩] ∧
    ((lobbyAssign [⟨1, 10⟩, ⟨2, 20⟩]).map fun p => (p.1, p.2.tabId)) =
      [(0, 10), (1, 20)] ∧
    ((lobbyAssign [⟨2, 10⟩, ⟨1, 20⟩]).map fun p => (p.1, p.2.tabId)) =
      [(0, 20), (1, 10)] := by decide

/-- Claim C1 amended: both lobby versions assign handles by sorting their
respective sort key ascending and setting `handle = index`, and each is a
pure, permutation-invariant function of its key set — but the key in
`src/lobby.rs` is the ephemeral MatchBox transport id, while only
`src/main.rs` sorts by the stable persistent identity. -/
theorem c1_assignment_pure_function :
    (∀ l₁ l₂ : List LPlayer,
      (l₁.Pairwise fun a b => a.matchPeerId ≠ b.matchPeerId) →
      l₁.Perm l₂ → lobbyAssign l₁ = lobbyAssign l₂) ∧
    (∀ l₁ l₂ : List MPlayer,
      (l₁.Pairwise fun a b => a.persistentId ≠ b.persistentId) →
      l₁.Perm l₂ → mainAssign l₁ = mainAssign l₂) ∧
    (∀ l : List MPlayer,
      ((mainAssign l).map fun p => p.2.persistentId).Sorted (· ≤ ·)) ∧
    (∀ l : List MPlayer, (mainAssign l).map Prod.fst = List.range l.length) := by
  refine ⟨fun l₁ l₂ hnd hp => ?_, fun l₁ l₂ hnd hp => ?_, fun l => ?_,
    fun l => ?_⟩
  · unfold lobbyAssign
    rw [sortKey_eq_of_perm (fun p => p.matchPeerId) l₁ l₂ hnd hp]
  · unfold mainAssign
    rw [sortKey_eq_of_perm (fun p => p.persistentId) l₁ l₂ hnd hp]
  · unfold mainAssign
    haveI : IsTotal MPlayer (fun a b => a.persistentId ≤ b.persistentId) :=
      ⟨fun a b => Nat.le_total _ _⟩
    haveI : IsTrans MPlayer (fun a b => a.persistentId ≤ b.persistentId) :=
      ⟨fun a b c h1 h2 => Nat.le_trans h1 h2⟩
    have hs := List.sorted_insertionSort
      (fun a b : MPlayer => a.persistentId ≤ b.persistentId) l
    have hmap : ((List.insertionSort
        (fun a b : MPlayer => a.persistentId ≤ b.persistentId) l).enum.map
          fun p => p.2.persistentId) =
        ((List.insertionSort
          (fun a b : MPlayer => a.persistentId ≤ b.persistentId) l).map
            fun p => p.persistentId) := by
      rw [show (fun p : Nat × MPlayer => p.2.persistentId) =
        (fun p : MPlayer => p.persistentId) ∘ Prod.snd from rfl]
      rw [← List.map_map, List.enum_map_snd]
    rw [hmap]
    exact hs.map _ (fun a b h => h)
  · unfold mainAssign
    rw [List.enum_map_fst]
    have := (List.perm_insertionSort
      (fun a b : MPlayer => a.persistentId ≤ b.persistentId) l).length_eq
    rw [this]

/-- Witness for `c1_assignment_pure_function`: two arrival orders of the
same two peers yield the same handle assignment. -/
theorem c1_assignment_pure_function_witness :
    (([⟨2, 10⟩, ⟨1, 20⟩] : List LPlayer).Pairwise
      fun a b => a.matchPeerId ≠ b.matchPeerId) ∧
    ([⟨2, 10⟩, ⟨1, 20⟩] : List LPlayer).Perm [⟨1, 20⟩, ⟨2, 10⟩] ∧
    lobbyAssign [⟨2, 10⟩, ⟨1, 20⟩] = lobbyAssign [⟨1, 20⟩, ⟨2, 10⟩] :=
  ⟨by decide, by decide,
    c1_assignment_pure_function.1 _ _ (by decide) (by decide)⟩

/-- The reduction body keeps one of its two arguments. -/
theorem pickBetter_or (a b : SavePair) :
    pickBetter a b = a ∨ pickBetter a b = b := by
  unfold pickBetter
  split
  · exact Or.inl rfl
  · split
    · exact Or.inr rfl
    · split
      · exact Or.inl rfl
      · exact Or.inr rfl

/-- `saveLe` is reflexive. -/
theorem saveLe_refl (a : SavePair) : saveLe a a := Or.inr ⟨rfl, Nat.le_refl _⟩

/-- `saveLe` is transitive. -/
theorem saveLe_trans {a b c : SavePair} (h1 : saveLe a b) (h2 : saveLe b c) :
    saveLe a c := by
  unfold saveLe at *
  omega

/-- The reduction body dominates its left argument under `saveLe`. -/
theorem saveLe_pickBetter_left (a b : SavePair) : saveLe a (pickBetter a b) := by
  unfold pickBetter saveLe
  split
  · omega
  · split
    · omega
    · split
      · omega
      · omega

/-- The reduction body dominates its right argument under `saveLe`. -/
theorem saveLe_pickBetter_right (a b : SavePair) : saveLe b (pickBetter a b) := by
  unfold pickBetter saveLe
  split
  · omega
  · split
    · omega
    · split
      · omega
      · omega

/-- The fold of the reduction body returns one of its inputs. -/
theorem foldl_pick_mem (l : List SavePair) :
    ∀ a, l.foldl pickBetter a = a ∨ l.foldl pickBetter a ∈ l := by
  induction l with
  | nil => exact fun a => Or.inl rfl
  | cons b t ih =>
    intro a
    simp only [List.foldl_cons]
    rcases ih (pickBetter a b) with h | h
    · rcases pickBetter_or a b with h2 | h2
      · exact Or.inl (h.trans h2)
      · exact Or.inr (List.mem_cons.mpr (Or.inl (h.trans h2)))
    · exact Or.inr (List.mem_cons_of_mem _ h)

/-- The fold of the reduction body dominates the seed and every element. -/
theorem foldl_pick_ub (l : List SavePair) :
    ∀ a, saveLe a (l.foldl pickBetter a) ∧
      ∀ x ∈ l, saveLe x (l.foldl pickBetter a) := by
  induction l with
  | nil =>
    exact fun a => ⟨saveLe_refl a, fun x hx => absurd hx (List.not_mem_nil x)⟩
  | cons b t ih =>
    intro a
    simp only [List.foldl_cons]
    rcases ih (pickBetter a b) with ⟨h1, h2⟩
    refine ⟨saveLe_trans (saveLe_pickBetter_left a b) h1, fun x hx => ?_⟩
    rcases List.mem_cons.mp hx with rfl | hx
    · exact saveLe_trans (saveLe_pickBetter_right a x) h1
    · exact h2 x hx

/-- The chosen pair is one of the present pairs and a `saveLe` upper bound
of all of them. -/
theorem bestPair_max (l : List SaveEntry) (p : SavePair)
    (hbp : bestPair l = some p) :
    p ∈ somePairs l ∧ ∀ q ∈ somePairs l, saveLe q p := by
  unfold bestPair reducePick at hbp
  cases hsp : somePairs l with
  | nil => rw [hsp] at hbp; cases hbp
  | cons a rest =>
    rw [hsp] at hbp
    injection hbp with hbp
    constructor
    · rcases foldl_pick_mem rest a with h | h
      · rw [← hbp, h]; exact List.mem_cons_self _ _
      · rw [← hbp]; exact List.mem_cons_of_mem _ h
    · intro q hq
      rcases List.mem_cons.mp hq with rfl | hq
      · rw [← hbp]; exact (foldl_pick_ub rest q).1
      · rw [← hbp]; exact (foldl_pick_ub rest a).2 q hq

/-- Every present pair comes from an entry of the input list. -/
theorem mem_somePairs {l : List SaveEntry} {q : SavePair}
    (h : q ∈ somePairs l) : ∃ e ∈ l, e.1 = q.1 ∧ e.2 = some q.2 := by
  unfold somePairs at h
  rcases List.mem_filterMap.mp h with ⟨e, he, hfe⟩
  cases he2 : e.2 with
  | none => rw [he2] at hfe; cases hfe
  | some g =>
    rw [he2] at hfe
    simp only [Option.map_some'] at hfe
    injection hfe with hfe
    exact ⟨e, he, by rw [← hfe], by rw [← hfe, he2]⟩

/-- Pairwise-distinct peer ids survive the `filter_map`. -/
theorem pairwise_somePairs {l : List SaveEntry}
    (hnd : l.Pairwise fun a b => a.1 ≠ b.1) :
    (somePairs l).Pairwise fun p q => p.1 ≠ q.1 := by
  induction l with
  | nil => exact List.Pairwise.nil
  | cons e t ih =>
    rcases List.pairwise_cons.mp hnd with ⟨he, ht⟩
    show ((e :: t).filterMap fun e => e.2.map fun g => (e.1, g)).Pairwise _
    rw [List.filterMap_cons]
    cases he2 : e.2 with
    | none => exact ih ht
    | some g =>
      simp only [Option.map_some']
      refine List.pairwise_cons.mpr ⟨fun q hq => ?_, ih ht⟩
      rcases mem_somePairs hq with ⟨e', he', hid, _⟩
      exact fun hcontra => (he e' he') (by rw [← hid] at hcontra; exact hcontra)

/-- In a list with pairwise-distinct ids, equal ids force equal elements. -/
theorem eq_of_mem_pairwise_ne {l : List SavePair}
    (hnd : l.Pairwise fun p q => p.1 ≠ q.1) {p q : SavePair}
    (hp : p ∈ l) (hq : q ∈ l) (h : p.1 = q.1) : p = q := by
  induction l with
  | nil => cases hp
  | cons a t ih =>
    rcases List.pairwise_cons.mp hnd with ⟨ha, ht⟩
    rcases List.mem_cons.mp hp with hpa | hp2
    · rcases List.mem_cons.mp hq with hqa | hq2
      · rw [hpa, hqa]
      · subst hpa
        exact absurd h (ha q hq2)
    · rcases List.mem_cons.mp hq with hqa | hq2
      · subst hqa
        exact absurd h.symm (ha p hp2)
      · exact ih ht hp2 hq2

/-- No pair is chosen exactly when no save is present. -/
theorem bestPair_none_iff (l : List SaveEntry) :
    bestPair l = none ↔ somePairs l = [] := by
  unfold bestPair reducePick
  cases somePairs l <;> simp

/-- Claim C2: for every multiset of (peer id, optional snapshot) entries
with pairwise-distinct ids, `find_best_game_save` is permutation-invariant,
and the pair its fold selects is a present pair that is maximal under the
lexicographic order — timestamp first, peer id as tie-break, the larger id
winning on equal timestamps. -/
theorem c2_arbiter (l₁ l₂ : List SaveEntry)
    (hnd : l₁.Pairwise fun a b => a.1 ≠ b.1) (hp : l₁.Perm l₂) :
    find_best_game_save l₁ = find_best_game_save l₂ ∧
    ∀ p, bestPair l₁ = some p →
      p ∈ somePairs l₁ ∧ ∀ q ∈ somePairs l₁, saveLe q p := by
  have hperm : (somePairs l₁).Perm (somePairs l₂) := hp.filterMap _
  have hnd₁ := pairwise_somePairs hnd
  have hbp : bestPair l₁ = bestPair l₂ := by
    cases h₁ : bestPair l₁ with
    | none =>
      have hs₁ := (bestPair_none_iff l₁).mp h₁
      have hs₂ : somePairs l₂ = [] := by
        rw [hs₁] at hperm
        exact hperm.symm.eq_nil
      exact ((bestPair_none_iff l₂).mpr hs₂).symm
    | some p₁ =>
      cases h₂ : bestPair l₂ with
      | none =>
        have hs₂ := (bestPair_none_iff l₂).mp h₂
        have hs₁ : somePairs l₁ = [] := by
          rw [hs₂] at hperm
          exact hperm.eq_nil
        rw [(bestPair_none_iff l₁).mpr hs₁] at h₁
        cases h₁
      | some p₂ =>
        rcases bestPair_max l₁ p₁ h₁ with ⟨hm₁, hub₁⟩
        rcases bestPair_max l₂ p₂ h₂ with ⟨hm₂, hub₂⟩
        have hm₂' : p₂ ∈ somePairs l₁ := hperm.mem_iff.mpr hm₂
        have hle₁ : saveLe p₁ p₂ := hub₂ p₁ (hperm.mem_iff.mp hm₁)
        have hle₂ : saveLe p₂ p₁ := hub₁ p₂ hm₂'
        have hid : p₁.1 = p₂.1 := by
          unfold saveLe at hle₁ hle₂
          omega
        rw [eq_of_mem_pairwise_ne hnd₁ hm₁ hm₂' hid]
  refine ⟨?_, fun p hb => bestPair_max l₁ p hb⟩
  show (reducePick (somePairs l₁)).map Prod.snd =
    (reducePick (somePairs l₂)).map Prod.snd
  have h := hbp
  rw [show bestPair l₁ = reducePick (somePairs l₁) from rfl,
    show bestPair l₂ = reducePick (somePairs l₂) from rfl] at h
  rw [h]

/-- Witness for `c2_arbiter`: the spec's example
`{(A, t=10), (B, t=20), (C, t=20)}` with identities `A=1 < B=2 < C=3`
chooses C's snapshot under any arrival order. -/
theorem c2_arbiter_witness :
    (([(1, some ⟨10, 100⟩), (2, some ⟨20, 200⟩), (3, some ⟨20, 300⟩)] :
      List SaveEntry).Pairwise fun a b => a.1 ≠ b.1) ∧
    ([(1, some ⟨10, 100⟩), (2, some ⟨20, 200⟩), (3, some ⟨20, 300⟩)] :
      List SaveEntry).Perm
      [(3, some ⟨20, 300⟩), (1, some ⟨10, 100⟩), (2, some ⟨20, 200⟩)] ∧
    find_best_game_save
        [(1, some ⟨10, 100⟩), (2, some ⟨20, 200⟩), (3, some ⟨20, 300⟩)] =
      find_best_game_save
        [(3, some ⟨20, 300⟩), (1, some ⟨10, 100⟩), (2, some ⟨20, 200⟩)] ∧
    find_best_game_save
        [(1, some ⟨10, 100⟩), (2, some ⟨20, 200⟩), (3, some ⟨20, 300⟩)] =
      some ⟨20, 300⟩ :=
  ⟨by decide, by decide,
    (c2_arbiter _ _ (by decide) (by decide)).1, by decide⟩

/-- A payload that fails to deserialize never changes the records. -/
theorem processMsg_bad_fst (recs : List HRec) (m : Nat × Wire P2PMessage)
    (h : decodeWire m.2 = none) : (processMsg recs m).1 = recs := by
  unfold processMsg
  split
  · simp [h]
  · rfl

/-- A backlog of payloads that all fail to deserialize leaves the records
of any fold state unchanged. -/
theorem receive_foldl_bad (backlog : List (Nat × Wire P2PMessage)) :
    ∀ st : List HRec × List (Nat × Wire P2PMessage),
      (∀ m ∈ backlog, decodeWire m.2 = none) →
      (backlog.foldl
        (fun st msg =>
          let res := processMsg st.1 msg
          (res.1, if res.2 then st.2 ++ [msg] else st.2)) st).1 = st.1 := by
  induction backlog with
  | nil => exact fun st h => rfl
  | cons m t ih =>
    intro st h
    simp only [List.foldl_cons]
    rw [ih _ (fun x hx => h x (List.mem_cons_of_mem _ hx))]
    exact processMsg_bad_fst st.1 m (h m (List.mem_cons_self _ _))

/-- Claim C8 counterexample: a payload that fails to deserialize, sent by a
peer with no record, is *retained* in the `Messages` backlog by
`receive_from_peers` in `src/lobby.rs` — it is not dropped (and no warning
is logged, since deserialization is never attempted for unknown senders). -/
theorem c8_unknown_sender_retains_malformed :
    receive_from_peers [] [(7, Wire.bad)] = ([], [(7, Wire.bad)]) ∧
    (processMsg [] (7, Wire.bad)).2 = true := by decide

/-- Claim C8 amended: a payload that fails to deserialize leaves every peer
record unchanged; when the sender has a record it is dropped from the
backlog with a logged warning (in `src/main.rs`, where messages come
straight off the socket, it is always dropped and the local `gamesaves`
map is also unchanged); when the sender has no record, `src/lobby.rs`
retains it unexamined in the backlog. -/
theorem c8_malformed_no_effect (records : List HRec) (pid : Nat)
    (backlog : List (Nat × Wire P2PMessage))
    (hbad : ∀ m ∈ backlog, decodeWire m.2 = none)
    (mrecords : List MainRec) (saves : List (Nat × Option GameSaveData)) :
    (processMsg records (pid, Wire.bad)).1 = records ∧
    ((∃ r ∈ records, r.peerId = pid) →
      (processMsg records (pid, Wire.bad)).2 = false) ∧
    (¬(∃ r ∈ records, r.peerId = pid) →
      (processMsg records (pid, Wire.bad)).2 = true) ∧
    (receive_from_peers records backlog).1 = records ∧
    mainProcessMsg mrecords saves pid Wire.bad = (mrecords, saves) := by
  refine ⟨processMsg_bad_fst records (pid, Wire.bad) rfl, ?_, ?_,
    receive_foldl_bad backlog (records, []) hbad, rfl⟩
  · intro hex
    rcases hex with ⟨r, hr, hid⟩
    unfold processMsg
    rw [if_pos (List.any_eq_true.mpr ⟨r, hr, by simp [hid]⟩)]
    rfl
  · intro hnex
    unfold processMsg
    rw [if_neg fun hc => hnex (by
      rcases List.any_eq_true.mp hc with ⟨r, hr, hb⟩
      exact ⟨r, hr, by simpa using hb⟩)]

/-- Witness for `c8_malformed_no_effect` at a concrete record set and a
backlog of one malformed payload. -/
theorem c8_malformed_no_effect_witness :
    (∀ m ∈ ([(5, Wire.bad)] : List (Nat × Wire P2PMessage)),
      decodeWire m.2 = none) ∧
    (receive_from_peers [⟨7, none, none, false, none⟩] [(5, Wire.bad)]).1 =
      [⟨7, none, none, false, none⟩] :=
  ⟨by decide,
    (c8_malformed_no_effect [⟨7, none, none, false, none⟩] 5 [(5, Wire.bad)]
      (by decide) [] []).2.2.2.1⟩

/-- Claim C9 counterexample: a well-formed handshake message from a sender
with no peer record does *not* create a record in `src/lobby.rs`:
`receive_from_peers` leaves the registry unchanged and keeps the message in
the backlog (the record is created later by `update_peers` on the connect
event, after which the retained message applies). -/
theorem c9_no_lazy_record_in_lobby :
    receive_from_peers [] [(7, Wire.good (P2PMessage.tabId 5))] =
      ([], [(7, Wire.good (P2PMessage.tabId 5))]) ∧
    ¬∃ r ∈ (receive_from_peers [] [(7, Wire.good (P2PMessage.tabId 5))]).1,
      r.peerId = 7 := by decide

/-- Claim C9 amended: the sender's update is neither discarded nor an
error in either version, but only `src/main.rs` lazily creates the record:
there, a `PeerInfo` message from an unknown sender spawns a new non-local
record for that transport id; in `src/lobby.rs` the message is retained
unprocessed in the backlog and record creation is deferred to the presence
tracker. -/
theorem c9_lazy_record_semantics (records : List HRec) (pid : Nat)
    (m : P2PMessage) (h : ¬∃ r ∈ records, r.peerId = pid)
    (mrecords : List MainRec) (saves : List (Nat × Option GameSaveData))
    (i : PeerInfo) (hm : ¬∃ r ∈ mrecords, r.matchId = pid) :
    processMsg records (pid, Wire.good m) = (records, true) ∧
    mainProcessMsg mrecords saves pid (Wire.good (MainMsg.peerInfo i)) =
      (mrecords ++ [{ matchId := pid, isLocal := false,
                      persistentId := i.persistentId, info := some i }],
        saves) := by
  constructor
  · unfold processMsg
    rw [if_neg fun hc => h (by
      rcases List.any_eq_true.mp hc with ⟨r, hr, hb⟩
      exact ⟨r, hr, by simpa using hb⟩)]
  · unfold mainProcessMsg
    simp only [decodeWire]
    rw [if_neg fun hc => hm (by
      rcases List.any_eq_true.mp hc with ⟨r, hr, hb⟩
      exact ⟨r, hr, by simpa using hb⟩)]

/-- Witness for `c9_lazy_record_semantics` at concrete unknown senders. -/
theorem c9_lazy_record_semantics_witness :
    ¬(∃ r ∈ ([⟨1, none, none, false, none⟩] : List HRec), r.peerId = 7) ∧
    ¬(∃ r ∈ ([] : List MainRec), r.matchId = 7) ∧
    processMsg [⟨1, none, none, false, none⟩]
      (7, Wire.good (P2PMessage.tabId 5)) =
      ([⟨1, none, none, false, none⟩], true) :=
  ⟨by decide, by decide,
    (c9_lazy_record_semantics [⟨1, none, none, false, none⟩] 7
      (P2PMessage.tabId 5) (by decide) [] [] ⟨false, 0, 9⟩ (by decide)).1⟩

end WebGhost
